import Mathlib

/-!
Shallow embedding of the decaf448 Go package (files `fe.go` and `decaf.go`
of bytemare/decaf448): field-element arithmetic backed by arbitrary
precision integers, the extended twisted-Edwards point operations, and the
Decaf encode / decode / one-way-map layer.  Every definition mirrors the
Go source statement by statement; the theorems at the end settle the
specification claims.

Modelling conventions:
* a Go `*Element` holds a `big.Int`; we model its value as `ℤ`.  All
  reducing operations use `big.Int.Mod` with the positive modulus, which
  is Euclidean remainder, i.e. `Int.emod` (`%` on `ℤ`).
* `big.Int.Exp` (modular exponentiation, consumed as a black box) is
  modelled by an executable fuel-bounded binary exponentiation `powMod`,
  proved below to compute `b ^ e % m`.
* byte strings are `List ℕ` of byte values.
-/

namespace Decaf448

set_option maxRecDepth 100000
set_option exponentiation.threshold 500

/-- Field prime of edwards448, copied from the decimal string `fieldOrder`
in fe.go (the Go variable is named `curveOrder`); it equals
`2 ^ 448 - 2 ^ 224 - 1`. -/
def P : ℕ := 726838724295606890549323807888004534353641360687318060281490199180612328166730772686396383698676545930088884461843637361053498018365439

theorem P_eq : P = 2 ^ 448 - 2 ^ 224 - 1 := by decide

instance : Fact (1 < P) := ⟨by decide⟩

/-- Exponent `(p - 3) / 4`, copied from the hex string `pMinus3Div4` in
fe.go. -/
def pMinus3Div4 : ℕ := 0x3fffffffffffffffffffffffffffffffffffffffffffffffffffffffbfffffffffffffffffffffffffffffffffffffffffffffffffffffff

/-- Fuel-bounded binary modular exponentiation.  This is the executable
model of Go `big.Int.Exp` (square-and-multiply modular exponentiation);
`powModAux_eq_pow_mod` below shows it computes `b ^ e % m`. -/
def powModAux : ℕ → ℕ → ℕ → ℕ → ℕ
  | 0, _, _, m => 1 % m
  | fuel + 1, b, e, m =>
    if e = 0 then 1 % m
    else
      let h := powModAux fuel b (e / 2) m
      let h2 := h * h % m
      if e % 2 = 1 then h2 * (b % m) % m else h2

/-- Modular exponentiation `b ^ e % m`, valid for exponents below
`2 ^ 1000` (every exponent used in the library is below `2 ^ 448`). -/
def powMod (b e m : ℕ) : ℕ := powModAux 1000 b e m

theorem powModAux_eq_pow_mod (fuel : ℕ) :
    ∀ b e m : ℕ, e < 2 ^ fuel → powModAux fuel b e m = b ^ e % m := by
  induction fuel with
  | zero =>
    intro b e m h
    have he : e = 0 := Nat.lt_one_iff.mp (by simpa using h)
    subst he
    simp [powModAux]
  | succ fuel ih =>
    intro b e m h
    by_cases he : e = 0
    · subst he
      simp [powModAux]
    · have hdiv : e / 2 < 2 ^ fuel := by
        have h2 : e < 2 ^ fuel * 2 := by
          rw [pow_succ] at h
          exact h
        exact Nat.div_lt_of_lt_mul (by omega)
      have hrec := ih b (e / 2) m hdiv
      have hsplit : b ^ e = b ^ (e / 2) * b ^ (e / 2) * b ^ (e % 2) := by
        rw [← pow_add, ← pow_add]
        congr 1
        omega
      rcases Nat.mod_two_eq_zero_or_one e with h2 | h2
      · simp only [powModAux, he, if_false, hrec, h2, Nat.one_ne_zero, if_neg,
          OfNat.zero_ne_ofNat, zero_ne_one]
        rw [hsplit, h2, pow_zero, mul_one]
        conv_rhs => rw [Nat.mul_mod]
      · simp only [powModAux, he, if_false, hrec, h2, if_true]
        rw [hsplit, h2, pow_one]
        conv_rhs => rw [Nat.mul_mod, Nat.mul_mod (b ^ (e / 2)) (b ^ (e / 2))]

theorem powMod_eq_pow_mod (b e m : ℕ) (h : e < 2 ^ 1000) :
    powMod b e m = b ^ e % m :=
  powModAux_eq_pow_mod 1000 b e m h

theorem powModAux_lt (fuel b e m : ℕ) (hm : 0 < m) :
    powModAux fuel b e m < m := by
  cases fuel with
  | zero => exact Nat.mod_lt _ hm
  | succ fuel =>
    simp only [powModAux]
    split
    · exact Nat.mod_lt _ hm
    · split
      · exact Nat.mod_lt _ hm
      · exact Nat.mod_lt _ hm

/-- Field elements: the value of the wrapped `big.Int`. -/
abbrev Element : Type := ℤ

/-- Go `reduce(x, mod)` with `mod = curveOrder`: `big.Int.Mod`, Euclidean
remainder by the positive modulus `p`. -/
def Element.reduce (x : ℤ) : Element := x % (P : ℤ)

/-- Go `Element.Add`: sum reduced mod p. -/
def Element.Add (u v : Element) : Element := Element.reduce (u + v)

/-- Go `Element.Subtract`: difference reduced mod p. -/
def Element.Subtract (u v : Element) : Element := Element.reduce (u - v)

/-- Go `Element.Multiply`: product reduced mod p. -/
def Element.Multiply (u v : Element) : Element := Element.reduce (u * v)

/-- Go `Element.Square`: square reduced mod p. -/
def Element.Square (u : Element) : Element := Element.reduce (u * u)

/-- Go `Element.Negate`: negation reduced mod p. -/
def Element.Negate (u : Element) : Element := Element.reduce (-u)

/-- Go `Element.Exp`: `big.Int.Exp(u, e, p)`, modular exponentiation with
result in `[0, p)`; modelled by binary exponentiation on the canonical
representative of the base. -/
def Element.Exp (u : Element) (e : ℕ) : Element :=
  ((powMod (u % (P : ℤ)).toNat e P : ℕ) : ℤ)

/-- Go `Element.IsNegative`: returns 1 exactly when `big.Int.Sign()` is
-1, i.e. when the stored integer is negative.  Note this tests the sign
of the arbitrary-precision integer, not the parity of the canonical
representative. -/
def Element.IsNegative (u : Element) : ℕ := if u < 0 then 1 else 0

/-- Go `Element.IsEqualCT`: both values are written into fixed 56-byte
buffers with `big.Int.FillBytes` (which takes the absolute value) and the
buffers are compared; for values of magnitude below `2 ^ 448` (all call
sites pass reduced values) this is equality of absolute values. -/
def Element.IsEqualCT (u v : Element) : ℕ := if u.natAbs = v.natAbs then 1 else 0

/-- Go `Element.SelectCT`: returns `u` when `cond = 1`, else `v`. -/
def Element.SelectCT (u v : Element) (cond : ℕ) : Element :=
  if cond = 1 then u else v

/-- Go `Element.AbsoluteCT`: select between `-u` and `u` on `IsNegative u`. -/
def Element.AbsoluteCT (u : Element) : Element :=
  Element.SelectCT (Element.Negate u) u (Element.IsNegative u)

/-- Constant `zero` from fe.go. -/
def zero : Element := 0

/-- Constant `one` from fe.go. -/
def one : Element := 1

/-- Constant `two` from fe.go. -/
def two : Element := 2

/-- Constant `minusOne` from fe.go: `Subtract(zero, one)`, i.e. `p - 1`. -/
def minusOne : Element := Element.Subtract zero one

/-- Constant `oneMinusD` from decaf.go. -/
def oneMinusD : Element := 39082

/-- Constant `oneMinusTwoD` from decaf.go. -/
def oneMinusTwoD : Element := 78163

/-- Constant `sqrtMinusD` from decaf.go. -/
def sqrtMinusD : Element := 98944233647732219769177004876929019128417576295529901074099889598043702116001257856802131563896515373927712232092845883226922417596214

/-- Constant `invSqrtMinusD` from decaf.go. -/
def invSqrtMinusD : Element := 315019913931389607337177038330951043522456072897266928557328499619017160722351061360252776265186336876723201881398623946864393857820716

/-- Constant `D` from decaf.go: the curve parameter `-39081` represented
canonically as `p - 39081`. -/
def D : Element := 726838724295606890549323807888004534353641360687318060281490199180612328166730772686396383698676545930088884461843637361053498018326358

/-- Go `Element.SqrtRatio` from fe.go: `r = u * (u*v) ^ ((p-3)/4)`,
`check = v * r ^ 2`, `was_square = CT_EQ(check, u)`, returns
`(was_square, CT_ABS(r))`. -/
def Element.SqrtRatio (u v : Element) : ℕ × Element :=
  let r1 := Element.Multiply u v
  let r2 := Element.Exp r1 pMinus3Div4
  let r3 := Element.Multiply r2 u
  let check := Element.Multiply v (Element.Square r3)
  (Element.IsEqualCT check u, Element.AbsoluteCT r3)

/-- Big-endian byte-string value, as in Go `big.Int.SetBytes`. -/
def bytesBE (l : List ℕ) : ℕ := l.foldl (fun acc b => acc * 256 + b) 0

/-- Go `Element.SetBytesBig`: `big.Int.SetBytes` of the input (no
reduction). -/
def Element.SetBytesBig (l : List ℕ) : Element := (bytesBE l : ℤ)

/-- Go `Element.SetBytesLittle`: the input is reversed and then read
big-endian (no reduction). -/
def Element.SetBytesLittle (l : List ℕ) : Element := (bytesBE l.reverse : ℤ)

/-- Helper for `big.Int.Bytes`: minimal big-endian byte list of a natural
number, with enough fuel for values below `256 ^ fuel`. -/
def natToBytesAux : ℕ → ℕ → List ℕ
  | 0, _ => []
  | fuel + 1, n => if n = 0 then [] else natToBytesAux fuel (n / 256) ++ [n % 256]

/-- Go `Element.Bytes`: `big.Int.Bytes()`, the minimal big-endian byte
slice of the absolute value — empty for zero, and with no leading zero
bytes.  64 bytes of fuel cover every value below `2 ^ 512`. -/
def Element.Bytes (u : Element) : List ℕ := natToBytesAux 64 u.natAbs

/-- Extended twisted-Edwards point, fields in the declaration order of the
Go struct. -/
structure Point where
  X : Element
  Y : Element
  T : Element
  Z : Element
  deriving DecidableEq

/-- Go `pZero()`: the neutral element `(0, 1, 0, 1)`. -/
def pZero : Point := ⟨0, 1, 0, 1⟩

/-- Go `Point.Negate`: `(-X, Y, -T, Z)`. -/
def Point.Negate (q : Point) : Point :=
  ⟨Element.Negate q.X, q.Y, Element.Negate q.T, q.Z⟩

/-- Go `Point.IsEqual`: `res = CT_EQ(x1*y2, y1*x2); res = res | CT_EQ(y1*y2, x1*x2)`
— note the bitwise OR combining the two cross-product checks. -/
def Point.IsEqual (pt q : Point) : ℕ :=
  Element.IsEqualCT (Element.Multiply pt.X q.Y) (Element.Multiply pt.Y q.X) |||
    Element.IsEqualCT (Element.Multiply pt.Y q.Y) (Element.Multiply pt.X q.X)

/-- Go `Point.Double`: dedicated doubling formula from fe.go (note
`d.Set(&a)`, i.e. the curve constant `a = 1` of edwards448). -/
def Point.Double (pt : Point) : Point :=
  let a := Element.Square pt.X
  let b := Element.Square pt.Y
  let c := Element.Multiply two (Element.Square pt.Z)
  let d := a
  let e := Element.Subtract
    (Element.Subtract (Element.Square (Element.Add pt.X pt.Y)) a) b
  let g := Element.Add d b
  let f := Element.Subtract g c
  let h := Element.Subtract d b
  ⟨Element.Multiply e f, Element.Multiply g h,
   Element.Multiply e h, Element.Multiply f g⟩

/-- Go `Point.Add` with receiver `pt` and argument `q`: the unified
extended twisted-Edwards addition from fe.go. -/
def Point.Add (pt q : Point) : Point :=
  let a := Element.Multiply pt.X q.X
  let b := Element.Multiply pt.Y q.Y
  let c := Element.Multiply (Element.Multiply q.T pt.T) D
  let d := Element.Multiply pt.Z q.Z
  let e := Element.Subtract
    (Element.Subtract
      (Element.Multiply (Element.Add pt.X pt.Y) (Element.Add q.X q.Y)) a) b
  let f := Element.Subtract d c
  let g := Element.Add d c
  let h := Element.Subtract b a
  ⟨Element.Multiply e f, Element.Multiply g h,
   Element.Multiply e h, Element.Multiply f g⟩

/-- Go `DecafElement`: wraps exactly one `Point`. -/
structure DecafElement where
  p : Point
  deriving DecidableEq

/-- Go `DecafElement.Encode` from decaf.go, returning
`reverse(s.int.Bytes())`. -/
def DecafElement.Encode (e : DecafElement) : List ℕ :=
  let u1 := Element.Multiply (Element.Add e.p.X e.p.T)
    (Element.Subtract e.p.X e.p.T)
  let u2 := Element.Multiply (Element.Multiply (Element.Square e.p.X) oneMinusD) u1
  let invsqrt := (Element.SqrtRatio one u2).2
  let ratio := Element.AbsoluteCT
    (Element.Multiply (Element.Multiply invsqrt u1) sqrtMinusD)
  let u2b := Element.Subtract
    (Element.Multiply (Element.Multiply invSqrtMinusD ratio) e.p.Z) e.p.T
  let s := Element.AbsoluteCT
    (Element.Multiply (Element.Multiply (Element.Multiply oneMinusD invsqrt) e.p.X) u2b)
  (Element.Bytes s).reverse

/-- Go `DecafElement.Decode` from decaf.go.  Each `panic` is modelled as
returning the receiver unchanged together with `false`; success returns
the decoded point and `true`.  The condition `curveOrder.Compare(s) != 1`
(the `Cmp` of `p` with `s` is not 1) is `p ≤ s`. -/
def DecafElement.Decode (e : DecafElement) (input : List ℕ) : DecafElement × Bool :=
  if input.length ≠ 56 then (e, false)
  else
    let s := Element.SetBytesLittle input
    if (P : ℤ) ≤ s then (e, false)
    else if Element.IsNegative s = 1 then (e, false)
    else
      let four : Element := 4
      let ss := Element.Square s
      let u1 := Element.Add ss one
      let u2 := Element.Subtract (Element.Multiply u1 u1)
        (Element.Multiply (Element.Multiply four D) ss)
      let arg := Element.Multiply u2 (Element.Multiply u1 u1)
      let sq := Element.SqrtRatio one arg
      let wasSquare := sq.1
      let invsqrt := sq.2
      let u3 := Element.AbsoluteCT
        (Element.Multiply
          (Element.Multiply (Element.Multiply (Element.Multiply two s) invsqrt) u1)
          sqrtMinusD)
      let x := Element.Multiply
        (Element.Multiply (Element.Multiply u3 invsqrt) u2) invSqrtMinusD
      let y := Element.Multiply
        (Element.Multiply (Element.Subtract one ss) invsqrt) u1
      let t := Element.Multiply x y
      if wasSquare ≠ 1 then (e, false)
      else (⟨⟨x, y, t, one⟩⟩, true)

/-- Stage of Go `_map` from decaf.go up to the computation of `s`:
returns `(vPrime, sgn, s, rMinOne)`. -/
def mapPre (input : List ℕ) : Element × Element × Element × Element :=
  let r0 := Element.SetBytesBig input
  let t := Element.reduce r0
  let r := Element.Negate (Element.Square t)
  let rMinOne := Element.Subtract r one
  let u0 := Element.Multiply D rMinOne
  let u01 := Element.Add u0 one
  let u0r := Element.Subtract u0 r
  let u1 := Element.Multiply u01 u0r
  let rPlusOne := Element.Add r one
  let u1b := Element.Multiply u1 rPlusOne
  let sq := Element.SqrtRatio oneMinusTwoD u1b
  let wasSquare := sq.1
  let v := sq.2
  let vPrime := Element.SelectCT v (Element.Multiply t v) wasSquare
  let sgn := Element.SelectCT one minusOne wasSquare
  let s := Element.Multiply vPrime rPlusOne
  (vPrime, sgn, s, rMinOne)

/-- Go `_map` from decaf.go.  Note the source computes `w1.Square(&s)`
and then immediately executes `w1.Add(&s, one)`, which overwrites the
squared value, so the final value of `w1` is `s + 1`. -/
def mapHalf (input : List ℕ) : Point :=
  match mapPre input with
  | (vPrime, sgn, s, rMinOne) =>
    let w0 := Element.Multiply two (Element.AbsoluteCT s)
    let w1 := Element.Add s one
    let w2 := Element.Subtract (Element.Square s) one
    let w3 := Element.Add
      (Element.Multiply (Element.Multiply (Element.Multiply vPrime s) rMinOne)
        oneMinusTwoD) sgn
    ⟨Element.Multiply w0 w3, Element.Multiply w2 w1,
     Element.Multiply w0 w2, Element.Multiply w1 w3⟩

/-- Modelled from the spec: the sign convention of section 4.1 — a field
element is negative exactly when its canonical representative in `[0, p)`
is odd, and the absolute value negates a negative element. -/
def AbsoluteSpec (u : Element) : Element :=
  if (u % (P : ℤ)) % 2 = 1 then Element.Negate u else u

/-- Final stage of the one-way map exactly as claim C4 and section 4.3 of
the spec state it: `w0 = 2*|s|`, `w1 = s^2 + 1`, `w2 = s^2 - 1`,
`w3 = vPrime*s*(r-1)*(1-2D) + sgn`, point `(w0*w3, w2*w1, w0*w2, w1*w3)`,
applied to the same intermediate values the code computes. -/
def mapClaimW (input : List ℕ) : Point :=
  match mapPre input with
  | (vPrime, sgn, s, rMinOne) =>
    let w0 := Element.Multiply two (AbsoluteSpec s)
    let w1 := Element.Add (Element.Square s) one
    let w2 := Element.Subtract (Element.Square s) one
    let w3 := Element.Add
      (Element.Multiply (Element.Multiply (Element.Multiply vPrime s) rMinOne)
        oneMinusTwoD) sgn
    ⟨Element.Multiply w0 w3, Element.Multiply w2 w1,
     Element.Multiply w0 w2, Element.Multiply w1 w3⟩

/-- Go `DecafElement.OneWayMap`: reverse the 112-byte input and apply
`_map` to each 56-byte half, then add the two points. -/
def OneWayMap (input : List ℕ) : Point :=
  let v := input.reverse
  let p1 := mapHalf (v.take 56)
  let p2 := mapHalf ((v.drop 56).take 56)
  Point.Add p1 p2

/-- All-zero 56-byte string (little-endian value 0). -/
def zeros56 : List ℕ := List.replicate 56 0

/-- All-0xFF 56-byte string (little-endian value `2 ^ 448 - 1`). -/
def ff56 : List ℕ := List.replicate 56 255

/-- 56-byte little-endian encoding of the even integer 2. -/
def leTwo : List ℕ := 2 :: List.replicate 55 0

/-- 56-byte little-endian encoding of the odd integer 5. -/
def leFive : List ℕ := 5 :: List.replicate 55 0

/-- 56-byte big-endian string of value 5, used as a one-way-map half. -/
def beFive : List ℕ := List.replicate 55 0 ++ [5]

/-- First point of the equality counterexample: `X = 0`, `Y = 1`. -/
def cexP : Point := ⟨0, 1, 0, 1⟩

/-- Second point of the equality counterexample: `X = 1`, `Y = 0`. -/
def cexQ : Point := ⟨1, 0, 0, 1⟩

/-- Claim C10: decoding the all-zero 56-byte string succeeds (from the
zero-value receiver of `NewGroupElement`) and yields the neutral element
`(0, 1, 0, 1)`. -/
theorem decode_allzero_neutral :
    DecafElement.Decode ⟨⟨0, 0, 0, 0⟩⟩ zeros56 = (⟨⟨0, 1, 0, 1⟩⟩, true) := by
  decide

/-- Claim C1: the round-trip law fails.  The 56-byte string encoding
`s = 2` (even, below `p`, hence non-negative by the sign convention) is
accepted by `Decode`, but re-encoding the decoded element does not return
the original byte string. -/
theorem decode_encode_roundtrip_fails :
    (DecafElement.Decode ⟨⟨0, 0, 0, 0⟩⟩ leTwo).2 = true ∧
    Element.SetBytesLittle leTwo = 2 ∧
    DecafElement.Encode (DecafElement.Decode ⟨⟨0, 0, 0, 0⟩⟩ leTwo).1 ≠ leTwo := by
  refine ⟨by decide, by decide, by decide⟩

/-- Claim C2: `Encode` does not always return 56 bytes.  On the neutral
element — which `Decode` itself produces from the all-zero string — the
computed `s` is 0 and `big.Int.Bytes` returns the empty slice, so
`Encode` returns 0 bytes. -/
theorem encode_neutral_not_56_bytes :
    DecafElement.Encode ⟨⟨0, 1, 0, 1⟩⟩ = [] ∧
    (DecafElement.Encode ⟨⟨0, 1, 0, 1⟩⟩).length ≠ 56 := by
  refine ⟨by decide, by decide⟩

/-- Claim C3: the returned root is not sign-normalized.  At
`(u, v) = (1, 1)` the code computes `r = 1` and returns `(1, 1)`, although
1 is odd, so the parity sign convention requires the non-negative root
`p - 1`.  (`AbsoluteCT` is a no-op here because `IsNegative` tests the
`big.Int` sign, which is never -1 on reduced values.) -/
theorem sqrtRatio_abs_broken :
    Element.SqrtRatio one one = (1, 1) ∧ (1 : Element) ≠ (P : ℤ) - 1 := by
  refine ⟨by decide, by decide⟩

/-- Claim C4: the `_map` stage formulas diverge from the claim.  On the
half of big-endian value 5 the internal `s` is even, so the broken
absolute value plays no role, yet the `Y` and `Z` coordinates differ
because the code's `w1` is `s + 1` (the `w1.Square(&s)` result is
overwritten by `w1.Add(&s, one)`) while the claim requires
`w1 = s ^ 2 + 1`; the `X` and `T` coordinates (which do not involve `w1`)
agree. -/
theorem mapHalf_w1_bug :
    (mapHalf beFive).X = (mapClaimW beFive).X ∧
    (mapHalf beFive).T = (mapClaimW beFive).T ∧
    (mapHalf beFive).Y ≠ (mapClaimW beFive).Y ∧
    (mapHalf beFive).Z ≠ (mapClaimW beFive).Z := by
  refine ⟨by decide, by decide, by decide, by decide⟩

/-- Claim C5: `Decode` accepts an odd canonical value.  The little-endian
encoding of `s = 5` (odd, below `p`) decodes successfully, because the
sign check `s.IsNegative() == 1` tests the `big.Int` sign, which is never
-1 for a value parsed from bytes. -/
theorem decode_accepts_odd_s :
    (DecafElement.Decode ⟨⟨0, 0, 0, 0⟩⟩ leFive).2 = true ∧
    Element.SetBytesLittle leFive % 2 = 1 ∧
    Element.SetBytesLittle leFive < (P : ℤ) := by
  refine ⟨by decide, by decide, by decide⟩

/-- Claim C6 counterexample: `IsEqual` returns 1 on a pair of points for
which the first cross-product identity fails (`X1*Y2 = 0` but
`Y1*X2 = 1`), so the two checks are combined with OR, not AND as the claim
states. -/
theorem isEqual_or_counterexample :
    Point.IsEqual cexP cexQ = 1 ∧
    Element.Multiply cexP.X cexQ.Y ≠ Element.Multiply cexP.Y cexQ.X := by
  refine ⟨by decide, by decide⟩

/-- Claim C8 counterexample: `SetBytesLittle` stores the unreduced value
of the byte string; on the all-0xFF input the stored value is
`2 ^ 448 - 1`, which is not below `p`. -/
theorem setBytesLittle_not_reduced :
    Element.SetBytesLittle ff56 = 2 ^ 448 - 1 ∧
    ¬ Element.SetBytesLittle ff56 < (P : ℤ) := by
  refine ⟨by decide, by decide⟩

/-- Positivity of the field prime. -/
theorem P_pos : 0 < P := by decide

theorem intP_pos : (0 : ℤ) < (P : ℤ) := by exact_mod_cast P_pos

theorem intP_ne_zero : (P : ℤ) ≠ 0 := ne_of_gt intP_pos

theorem Multiply_nonneg (u v : Element) : 0 ≤ Element.Multiply u v :=
  Int.emod_nonneg _ intP_ne_zero

theorem Multiply_lt (u v : Element) : Element.Multiply u v < (P : ℤ) :=
  Int.emod_lt_of_pos _ intP_pos

theorem isEqualCT_eq_one_iff (u v : Element) (hu : 0 ≤ u) (hv : 0 ≤ v) :
    Element.IsEqualCT u v = 1 ↔ u = v := by
  unfold Element.IsEqualCT
  rw [← Int.natAbs_inj_of_nonneg_of_nonneg hu hv]
  split <;> simp_all

theorem isEqualCT_zero_or_one (u v : Element) :
    Element.IsEqualCT u v = 0 ∨ Element.IsEqualCT u v = 1 := by
  unfold Element.IsEqualCT
  split <;> simp

theorem lor_eq_one (m n : ℕ) (hm : m = 0 ∨ m = 1) (hn : n = 0 ∨ n = 1) :
    (m ||| n) = 1 ↔ (m = 1 ∨ n = 1) := by
  rcases hm with h | h <;> rcases hn with h2 | h2 <;> subst h <;> subst h2 <;> decide

/-- Claim C6 (amended): the code combines the two cross-product checks
with OR (as RFC 9496 specifies), so `IsEqual` returns 1 exactly when at
least one of the two identities holds. -/
theorem isEqual_iff_or (A B : Point) :
    Point.IsEqual A B = 1 ↔
      (Element.Multiply A.X B.Y = Element.Multiply A.Y B.X ∨
       Element.Multiply A.Y B.Y = Element.Multiply A.X B.X) := by
  unfold Point.IsEqual
  rw [lor_eq_one _ _ (isEqualCT_zero_or_one _ _) (isEqualCT_zero_or_one _ _),
    isEqualCT_eq_one_iff _ _ (Multiply_nonneg _ _) (Multiply_nonneg _ _),
    isEqualCT_eq_one_iff _ _ (Multiply_nonneg _ _) (Multiply_nonneg _ _)]

theorem intCast_reduce (x : ℤ) :
    ((Element.reduce x : ℤ) : ZMod P) = (x : ZMod P) := by
  unfold Element.reduce
  exact ZMod.intCast_mod x P

theorem intCast_Add (u v : Element) :
    ((Element.Add u v : ℤ) : ZMod P) = (u : ZMod P) + (v : ZMod P) := by
  unfold Element.Add
  rw [intCast_reduce]
  push_cast
  ring

theorem intCast_Subtract (u v : Element) :
    ((Element.Subtract u v : ℤ) : ZMod P) = (u : ZMod P) - (v : ZMod P) := by
  unfold Element.Subtract
  rw [intCast_reduce]
  push_cast
  ring

theorem intCast_Multiply (u v : Element) :
    ((Element.Multiply u v : ℤ) : ZMod P) = (u : ZMod P) * (v : ZMod P) := by
  unfold Element.Multiply
  rw [intCast_reduce]
  push_cast
  ring

theorem intCast_Square (u : Element) :
    ((Element.Square u : ℤ) : ZMod P) = (u : ZMod P) * (u : ZMod P) := by
  unfold Element.Square
  rw [intCast_reduce]
  push_cast
  ring

theorem intCast_Negate (u : Element) :
    ((Element.Negate u : ℤ) : ZMod P) = -(u : ZMod P) := by
  unfold Element.Negate
  rw [intCast_reduce]
  push_cast
  ring

theorem Multiply_eq_of_cast {a b c d : Element}
    (h : (a : ZMod P) * (b : ZMod P) = (c : ZMod P) * (d : ZMod P)) :
    Element.Multiply a b = Element.Multiply c d := by
  unfold Element.Multiply Element.reduce
  have h2 : ((a * b : ℤ) : ZMod P) = ((c * d : ℤ) : ZMod P) := by
    push_cast
    exact h
  exact (ZMod.intCast_eq_intCast_iff _ _ _).mp h2

theorem IsEqual_one_of_first (A B : Point)
    (h : (A.X : ZMod P) * (B.Y : ZMod P) = (A.Y : ZMod P) * (B.X : ZMod P)) :
    Point.IsEqual A B = 1 := by
  have heq : Element.Multiply A.X B.Y = Element.Multiply A.Y B.X :=
    Multiply_eq_of_cast h
  unfold Point.IsEqual
  rw [heq]
  have h1 : Element.IsEqualCT (Element.Multiply A.Y B.X)
      (Element.Multiply A.Y B.X) = 1 := by
    unfold Element.IsEqualCT
    simp
  rw [h1]
  rcases isEqualCT_zero_or_one (Element.Multiply A.Y B.Y)
    (Element.Multiply A.X B.X) with h2 | h2 <;> rw [h2] <;> decide

/-- Claim C7: for every point satisfying the projective curve equation
with the extended-coordinate invariant and nonzero `Z`, the three group
identities hold under the projective equality of the code. -/
theorem group_identities (Q : Point)
    (hcurve : (Q.Z : ZMod P) ^ 2 * ((Q.X : ZMod P) ^ 2 + (Q.Y : ZMod P) ^ 2)
      = (Q.Z : ZMod P) ^ 4 + (D : ZMod P) * (Q.X : ZMod P) ^ 2 * (Q.Y : ZMod P) ^ 2)
    (hT : (Q.T : ZMod P) * (Q.Z : ZMod P) = (Q.X : ZMod P) * (Q.Y : ZMod P))
    (hZ : (Q.Z : ZMod P) ≠ 0) :
    Point.IsEqual (Point.Add Q pZero) Q = 1 ∧
    Point.IsEqual (Point.Add Q (Point.Negate Q)) pZero = 1 ∧
    Point.IsEqual (Point.Double Q) (Point.Add Q Q) = 1 := by
  refine ⟨?_, ?_, ?_⟩
  · apply IsEqual_one_of_first
    simp only [Point.Add, pZero, intCast_Multiply, intCast_Add, intCast_Subtract,
      intCast_Square, intCast_Negate, Int.cast_zero, Int.cast_one]
    ring
  · apply IsEqual_one_of_first
    simp only [Point.Add, Point.Negate, pZero, intCast_Multiply, intCast_Add,
      intCast_Subtract, intCast_Square, intCast_Negate, Int.cast_zero, Int.cast_one]
    ring
  · apply IsEqual_one_of_first
    simp only [Point.Add, Point.Double, two, intCast_Multiply, intCast_Add,
      intCast_Subtract, intCast_Square, intCast_Negate]
    push_cast
    linear_combination
      (4 * (Q.X : ZMod P) * (Q.Y : ZMod P) *
        ((Q.Y : ZMod P) ^ 2 - (Q.X : ZMod P) ^ 2)) * hcurve -
      (4 * (Q.X : ZMod P) * (Q.Y : ZMod P) *
        ((Q.Y : ZMod P) ^ 2 - (Q.X : ZMod P) ^ 2) * (D : ZMod P) *
        ((Q.X : ZMod P) * (Q.Y : ZMod P) + (Q.T : ZMod P) * (Q.Z : ZMod P))) * hT

/-- Witness for claim C7: the neutral element `(0, 1, 0, 1)` satisfies the
hypotheses, and the three identities hold for it. -/
theorem group_identities_witness :
    ((pZero.Z : ZMod P) ^ 2 * ((pZero.X : ZMod P) ^ 2 + (pZero.Y : ZMod P) ^ 2)
      = (pZero.Z : ZMod P) ^ 4
        + (D : ZMod P) * (pZero.X : ZMod P) ^ 2 * (pZero.Y : ZMod P) ^ 2) ∧
    ((pZero.T : ZMod P) * (pZero.Z : ZMod P)
      = (pZero.X : ZMod P) * (pZero.Y : ZMod P)) ∧
    (pZero.Z : ZMod P) ≠ 0 ∧
    (Point.IsEqual (Point.Add pZero pZero) pZero = 1 ∧
     Point.IsEqual (Point.Add pZero (Point.Negate pZero)) pZero = 1 ∧
     Point.IsEqual (Point.Double pZero) (Point.Add pZero pZero) = 1) := by
  have h1 : (pZero.Z : ZMod P) ^ 2 * ((pZero.X : ZMod P) ^ 2 + (pZero.Y : ZMod P) ^ 2)
      = (pZero.Z : ZMod P) ^ 4
        + (D : ZMod P) * (pZero.X : ZMod P) ^ 2 * (pZero.Y : ZMod P) ^ 2 := by
    simp [pZero]
  have h2 : (pZero.T : ZMod P) * (pZero.Z : ZMod P)
      = (pZero.X : ZMod P) * (pZero.Y : ZMod P) := by
    simp [pZero]
  have h3 : (pZero.Z : ZMod P) ≠ 0 := by
    simp only [pZero, Int.cast_one]
    exact one_ne_zero
  exact ⟨h1, h2, h3, group_identities pZero h1 h2 h3⟩

/-- Claim C8 (amended): every arithmetic operation that reduces returns a
value in `[0, p)`; this covers `Add`, `Subtract`, `Multiply`, `Square`,
`Negate` and `Exp` (byte-string construction, by contrast, stores the
unreduced value — see the counterexample). -/
theorem arithmetic_ops_reduced (u v : Element) (e : ℕ) :
    (0 ≤ Element.Add u v ∧ Element.Add u v < (P : ℤ)) ∧
    (0 ≤ Element.Subtract u v ∧ Element.Subtract u v < (P : ℤ)) ∧
    (0 ≤ Element.Multiply u v ∧ Element.Multiply u v < (P : ℤ)) ∧
    (0 ≤ Element.Square u ∧ Element.Square u < (P : ℤ)) ∧
    (0 ≤ Element.Negate u ∧ Element.Negate u < (P : ℤ)) ∧
    (0 ≤ Element.Exp u e ∧ Element.Exp u e < (P : ℤ)) := by
  refine ⟨⟨Int.emod_nonneg _ intP_ne_zero, Int.emod_lt_of_pos _ intP_pos⟩,
    ⟨Int.emod_nonneg _ intP_ne_zero, Int.emod_lt_of_pos _ intP_pos⟩,
    ⟨Int.emod_nonneg _ intP_ne_zero, Int.emod_lt_of_pos _ intP_pos⟩,
    ⟨Int.emod_nonneg _ intP_ne_zero, Int.emod_lt_of_pos _ intP_pos⟩,
    ⟨Int.emod_nonneg _ intP_ne_zero, Int.emod_lt_of_pos _ intP_pos⟩,
    ⟨Int.natCast_nonneg _, ?_⟩⟩
  unfold Element.Exp powMod
  exact_mod_cast powModAux_lt 1000 _ e P P_pos

theorem Decode_cases (e : DecafElement) (input : List ℕ) :
    DecafElement.Decode e input = (e, false) ∨
    (DecafElement.Decode e input).2 = true := by
  unfold DecafElement.Decode
  dsimp only
  split
  · exact Or.inl rfl
  · split
    · exact Or.inl rfl
    · split
      · exact Or.inl rfl
      · split
        · exact Or.inl rfl
        · exact Or.inr rfl

/-- Claim C9: whenever `Decode` fails, the receiver is returned
unchanged — in the source every `panic` fires before any coordinate of
the receiver is written. -/
theorem decode_failure_preserves_receiver (e : DecafElement) (input : List ℕ)
    (h : (DecafElement.Decode e input).2 = false) :
    (DecafElement.Decode e input).1 = e := by
  rcases Decode_cases e input with h2 | h2
  · rw [h2]
  · rw [h2] at h
    cases h

/-- Witness for claim C9: decoding the empty byte string from a receiver
with coordinates `(2, 3, 4, 5)` fails and leaves the receiver intact. -/
theorem decode_failure_preserves_receiver_witness :
    (DecafElement.Decode ⟨⟨2, 3, 4, 5⟩⟩ []).2 = false ∧
    (DecafElement.Decode ⟨⟨2, 3, 4, 5⟩⟩ []).1 = ⟨⟨2, 3, 4, 5⟩⟩ :=
  ⟨by decide, decode_failure_preserves_receiver _ _ (by decide)⟩

end Decaf448
